import Mathlib

/-
  Verification of the semaphore admission logic of traffic-lights
  (src/semaphore/logic.rs), as a shallow embedding in Lean 4.

  The shared store's queue for one semaphore key is a `List String` of
  requester identities; the store primitives RPUSH / LPOS / LPOP / EXPIRE
  are modelled directly on that list.  The polling loop of `wait_for_slot`
  interacts with a concurrently mutated queue, so the LPOS answers seen by
  one caller are supplied as an explicit finite list of `Option Nat`
  (`none` = identity not found, the `unwrap_or(1)` case); running out of
  supplied answers leaves the call `pending` (the real loop would keep
  polling).  Besides its outcome, a run records the positions observed at
  each loop head, the sleep durations requested, and the trace of store
  commands issued.
-/

/-- Configuration carried by one Acquire/Release pair (the fields of
`ThreadState` used by `wait_for_slot` and `clean_up`). -/
structure ThreadState where
  queue_key : String
  id : String
  capacity : Nat
  max_position : Nat
  sleep_duration : Nat
deriving DecidableEq, Repr

/-- Result of one modelled Acquire run. -/
inductive AcquireOutcome where
  | ok : AcquireOutcome
  | maxPositionExceeded : Nat → Nat → AcquireOutcome
  | pending : AcquireOutcome
deriving DecidableEq, Repr

/-- Store commands issued against the shared key-value store. -/
inductive StoreCmd where
  | rpushCmd : String → String → StoreCmd
  | lposCmd : String → String → StoreCmd
  | lpopCmd : String → Nat → StoreCmd
  | expireCmd : String → Nat → StoreCmd
deriving DecidableEq, Repr

/-- Whether a store command is a queue append. -/
def StoreCmd.isPush : StoreCmd → Bool
  | .rpushCmd _ _ => true
  | _ => false

/-- Whether a store command removes queue entries. -/
def StoreCmd.isPop : StoreCmd → Bool
  | .lpopCmd _ _ => true
  | _ => false

/-- Effect of one store command on a queue (LPOS and EXPIRE leave the
queue contents unchanged). -/
def applyCmd (q : List String) : StoreCmd → List String
  | .rpushCmd _ v => q ++ [v]
  | .lposCmd _ _ => q
  | .lpopCmd _ n => q.drop n
  | .expireCmd _ _ => q

/-- Effect of a command trace on a queue. -/
def applyTrace (q : List String) (cmds : List StoreCmd) : List String :=
  cmds.foldl applyCmd q

/-- RPUSH: atomic append returning the queue and its new (1-based) length. -/
def rpush (queue : List String) (v : String) : List String × Nat :=
  (queue ++ [v], (queue ++ [v]).length)

/-- LPOS: 0-indexed rank of the first occurrence of `v`, `none` if absent. -/
def lpos (v : String) : List String → Option Nat
  | [] => none
  | x :: xs => if x = v then some 0 else (lpos v xs).map (fun n => n + 1)

/-- Modelled from the spec: the body of `estimate_appropriate_sleep_duration`
lives in src/semaphore/utils.rs, which is outside the provided sources; the
spec prescribes a pure function
`sleep = base_sleep_duration * clamp(f(position - capacity), min=1, max=some_ceiling)`
with `f` sub-linear (square-root chosen here, ceiling 10). -/
def estimate_appropriate_sleep_duration (position capacity base_duration : Nat) : Nat :=
  base_duration * min 10 (max 1 (Nat.sqrt (position - capacity)))

/-- One record of an Acquire run: final outcome, trace of store commands
issued, sleep durations requested, and the position value observed at each
head of the polling loop. -/
structure AcquireRun where
  outcome : AcquireOutcome
  trace : List StoreCmd
  sleeps : List Nat
  observed : List Nat
deriving DecidableEq, Repr

/-- The polling loop of `wait_for_slot`, entered with the current position
value `p`; `polls` supplies the LPOS answers of the successive re-queries.
Mirrors logic.rs lines 28-60: break when `p < capacity`; fail when
`max_position > 0 && p > max_position`; otherwise sleep, re-query LPOS and
default a missing position to `1` (`unwrap_or(1)`). -/
def waitLoop (ts : ThreadState) : Nat → List (Option Nat) → AcquireRun
  | p, [] =>
    if p < ts.capacity then
      { outcome := .ok, trace := [], sleeps := [], observed := [p] }
    else if 0 < ts.max_position ∧ ts.max_position < p then
      { outcome := .maxPositionExceeded p ts.max_position, trace := [], sleeps := [],
        observed := [p] }
    else
      { outcome := .pending, trace := [], sleeps := [], observed := [p] }
  | p, q :: rest =>
    if p < ts.capacity then
      { outcome := .ok, trace := [], sleeps := [], observed := [p] }
    else if 0 < ts.max_position ∧ ts.max_position < p then
      { outcome := .maxPositionExceeded p ts.max_position, trace := [], sleeps := [],
        observed := [p] }
    else
      let r := waitLoop ts (q.getD 1) rest
      { outcome := r.outcome,
        trace := .lposCmd ts.queue_key ts.id :: r.trace,
        sleeps := estimate_appropriate_sleep_duration p ts.capacity ts.sleep_duration :: r.sleeps,
        observed := p :: r.observed }

/-- Acquire (`wait_for_slot`): RPUSH the caller's id onto `queue`, take the
returned 1-based length as the initial position, and run the polling loop. -/
def wait_for_slot (ts : ThreadState) (queue : List String) (polls : List (Option Nat)) :
    AcquireRun :=
  let r := waitLoop ts (rpush queue ts.id).2 polls
  { r with trace := .rpushCmd ts.queue_key ts.id :: r.trace }

/-- The run of the caller at index `k` (0-based) among `ids.length` concurrent
Acquire calls with distinct ids against an initially empty queue: the atomic
RPUSHes serialize in the order of `ids`, so caller `k` pushes onto the queue
`ids.take k`, and its `m` subsequent LPOS re-queries answer its 0-indexed rank
in the full queue `ids` (no entry is popped meanwhile). -/
def concurrentCallerRun (ids : List String) (k : Nat) (hk : k < ids.length)
    (C : Nat) (qk : String) (b m : Nat) : AcquireRun :=
  wait_for_slot ⟨qk, ids.get ⟨k, hk⟩, C, 0, b⟩ (ids.take k)
    (List.replicate m (lpos (ids.get ⟨k, hk⟩) ids))

/-- Errors of the semaphore module (`SemaphoreError` in errors.rs, plus the
join failure wrapped by `clean_up`). -/
inductive SemaphoreError where
  | connectionError : String → SemaphoreError
  | storeCommandError : String → SemaphoreError
  | taskJoinError : String → SemaphoreError
  | maxPositionExceeded : String → SemaphoreError
deriving DecidableEq, Repr

/-- Result of one of the two concurrent sub-tasks of `clean_up`. -/
inductive LegResult where
  | ok : LegResult
  | err : SemaphoreError → LegResult
deriving DecidableEq, Repr

/-- Store-resident state touched by `clean_up`: the queue contents and the
time-to-live of the queue key. -/
structure StoreState where
  queue : List String
  ttl : Option Nat
deriving DecidableEq, Repr

/-- Record of one Release run: surfaced result, resulting store state, and
the trace of store commands issued. -/
structure ReleaseRun where
  result : LegResult
  store : StoreState
  trace : List StoreCmd
deriving DecidableEq, Repr

/-- Release (`clean_up`): two concurrently spawned sub-tasks, task 1 running
`EXPIRE queue_key 30` and task 2 running `LPOP queue_key 1`; a failed leg
(`expireRes` / `popRes`) leaves its store effect unapplied. Task 1 is awaited
before task 2 (logic.rs lines 97-98), so task 1's error is surfaced when both
legs fail. -/
def clean_up (ts : ThreadState) (s : StoreState) (expireRes popRes : LegResult) : ReleaseRun :=
  let afterExpire : StoreState :=
    match expireRes with
    | .ok => { s with ttl := some 30 }
    | .err _ => s
  let afterPop : StoreState :=
    match popRes with
    | .ok => { afterExpire with queue := afterExpire.queue.tail }
    | .err _ => afterExpire
  { result :=
      match expireRes with
      | .err e => .err e
      | .ok => popRes
    store := afterPop
    trace := [.expireCmd ts.queue_key 30, .lpopCmd ts.queue_key 1] }

/-- The position observed at the head of the polling loop is the position the
loop was entered with. -/
theorem waitLoop_observed_head (ts : ThreadState) (p : Nat) (polls : List (Option Nat)) :
    (waitLoop ts p polls).observed.head? = some p := by
  cases polls <;> simp only [waitLoop] <;> split_ifs <;> simp

/-- The polling loop admits exactly when some observed position is below
capacity. -/
theorem waitLoop_ok_iff (ts : ThreadState) (p : Nat) (polls : List (Option Nat)) :
    (waitLoop ts p polls).outcome = .ok ↔
      ∃ v ∈ (waitLoop ts p polls).observed, v < ts.capacity := by
  induction polls generalizing p with
  | nil =>
    simp only [waitLoop]
    split_ifs with h1 h2 <;> simp_all
  | cons q rest ih =>
    simp only [waitLoop]
    split_ifs with h1 h2
    · simp_all
    · simp_all
    · simpa [h1] using ih (q.getD 1)

/-- With `max_position = 0` the loop never fails with `MaxPositionExceeded`. -/
theorem waitLoop_maxPos_zero (ts : ThreadState) (h : ts.max_position = 0) (p : Nat)
    (polls : List (Option Nat)) (v m : Nat) :
    (waitLoop ts p polls).outcome ≠ .maxPositionExceeded v m := by
  induction polls generalizing p with
  | nil =>
    simp only [waitLoop]
    split_ifs with h1 h2 <;> simp_all
  | cons q rest ih =>
    simp only [waitLoop]
    split_ifs with h1 h2 <;> simp_all

/-- If an observed position is at least the capacity and strictly above a
positive `max_position`, the loop fails with `MaxPositionExceeded` carrying
that position and the bound. -/
theorem waitLoop_maxPos_of_mem (ts : ThreadState) (p : Nat) (polls : List (Option Nat))
    (v : Nat) (h0 : 0 < ts.max_position) (hv : v ∈ (waitLoop ts p polls).observed)
    (hm : ts.max_position < v) (hc : ts.capacity ≤ v) :
    (waitLoop ts p polls).outcome = .maxPositionExceeded v ts.max_position := by
  induction polls generalizing p with
  | nil =>
    simp only [waitLoop] at hv ⊢
    split_ifs at hv ⊢ with h1 h2
    · simp only [List.mem_singleton] at hv
      exfalso
      omega
    · simp only [List.mem_singleton] at hv
      subst hv
      rfl
    · simp only [List.mem_singleton] at hv
      subst hv
      exact absurd ⟨h0, hm⟩ h2
  | cons q rest ih =>
    simp only [waitLoop] at hv ⊢
    split_ifs at hv ⊢ with h1 h2
    · simp only [List.mem_singleton] at hv
      exfalso
      omega
    · simp only [List.mem_singleton] at hv
      subst hv
      rfl
    · simp only [List.mem_cons] at hv
      rcases hv with rfl | hv
      · exact absurd ⟨h0, hm⟩ h2
      · exact ih (q.getD 1) hv

/-- A `MaxPositionExceeded` outcome always carries a position at least the
capacity, strictly above the bound, and the configured bound itself. -/
theorem waitLoop_maxPos_inv (ts : ThreadState) (p : Nat) (polls : List (Option Nat))
    (v m : Nat) (h : (waitLoop ts p polls).outcome = .maxPositionExceeded v m) :
    ts.capacity ≤ v ∧ m = ts.max_position ∧ ts.max_position < v ∧ 0 < ts.max_position := by
  induction polls generalizing p with
  | nil =>
    simp only [waitLoop] at h
    split_ifs at h with h1 h2
    · simp at h
      omega
  | cons q rest ih =>
    simp only [waitLoop] at h
    split_ifs at h with h1 h2
    · simp at h
      omega
    · exact ih (q.getD 1) h

/-- Every store command issued by the polling loop is an LPOS re-query. -/
theorem waitLoop_trace_mem (ts : ThreadState) (p : Nat) (polls : List (Option Nat)) :
    ∀ c ∈ (waitLoop ts p polls).trace, c = StoreCmd.lposCmd ts.queue_key ts.id := by
  induction polls generalizing p with
  | nil =>
    simp only [waitLoop]
    split_ifs <;> simp
  | cons q rest ih =>
    simp only [waitLoop]
    split_ifs with h1 h2
    · simp
    · simp
    · intro c hc
      simp only [List.mem_cons] at hc
      rcases hc with rfl | hc
      · rfl
      · exact ih (q.getD 1) c hc

/-- With an unbounded `max_position` and every re-query answering a position
at least the capacity, a caller entering at a position at least the capacity
stays pending and only ever observes positions at least the capacity. -/
theorem waitLoop_replicate (ts : ThreadState) (hmp : ts.max_position = 0) (v : Nat)
    (hv : ts.capacity ≤ v) (m : Nat) (p : Nat) (hp : ts.capacity ≤ p) :
    (waitLoop ts p (List.replicate m (some v))).outcome = .pending ∧
      ∀ w ∈ (waitLoop ts p (List.replicate m (some v))).observed, ts.capacity ≤ w := by
  induction m generalizing p with
  | zero =>
    simp only [List.replicate, waitLoop]
    split_ifs with h1 h2
    · omega
    · omega
    · simp
      exact hp
  | succ n ih =>
    simp only [List.replicate, waitLoop, Option.getD_some]
    split_ifs with h1 h2
    · omega
    · omega
    · refine ⟨(ih v hv).1, ?_⟩
      intro w hw
      simp only [List.mem_cons] at hw
      rcases hw with rfl | hw
      · exact hp
      · exact (ih v hv).2 w hw

/-- In a duplicate-free queue, LPOS of the `k`-th entry answers `k`. -/
theorem lpos_get_of_nodup : ∀ (ids : List String), ids.Nodup →
    ∀ (k : Nat) (hk : k < ids.length), lpos (ids.get ⟨k, hk⟩) ids = some k := by
  intro ids
  induction ids with
  | nil =>
    intro _ k hk
    simp at hk
  | cons x xs ih =>
    intro hnd k hk
    rw [List.nodup_cons] at hnd
    cases k with
    | zero => simp [lpos]
    | succ n =>
      have hn : n < xs.length := by simpa using hk
      have hmem : xs.get ⟨n, hn⟩ ∈ xs := xs.get_mem _ _
      have hne : x ≠ xs.get ⟨n, hn⟩ := fun hx => hnd.1 (hx ▸ hmem)
      simp only [List.get_cons_succ, lpos, if_neg hne]
      rw [ih hnd.2 n hn]
      rfl

/-- A trace made of LPOS commands only leaves the queue unchanged. -/
theorem applyTrace_of_lpos (k v : String) (cmds : List StoreCmd)
    (h : ∀ c ∈ cmds, c = StoreCmd.lposCmd k v) (q : List String) :
    applyTrace q cmds = q := by
  induction cmds generalizing q with
  | nil => rfl
  | cons c cs ih =>
    have hc : c = StoreCmd.lposCmd k v := h c (List.mem_cons_self c cs)
    have hcs : ∀ c ∈ cs, c = StoreCmd.lposCmd k v := fun c hmem =>
      h c (List.mem_cons_of_mem _ hmem)
    simp [applyTrace, List.foldl_cons, hc, applyCmd] at ih ⊢
    exact ih hcs q

/-- Acquire's outcome is the outcome of its polling loop, entered at the
length returned by the RPUSH. -/
theorem wait_for_slot_outcome (ts : ThreadState) (queue : List String)
    (polls : List (Option Nat)) :
    (wait_for_slot ts queue polls).outcome = (waitLoop ts (rpush queue ts.id).2 polls).outcome :=
  rfl

/-- Acquire's observed positions are those of its polling loop. -/
theorem wait_for_slot_observed (ts : ThreadState) (queue : List String)
    (polls : List (Option Nat)) :
    (wait_for_slot ts queue polls).observed =
      (waitLoop ts (rpush queue ts.id).2 polls).observed :=
  rfl

/-- C1, counterexample: with `capacity = 3` and `max_position = 1`, a caller
entering a one-element queue observes position `2 > 1` at its first poll, yet
Acquire succeeds instead of failing with `MaxPositionExceeded`. -/
theorem C1_counterexample :
    (wait_for_slot ⟨"q", "b", 3, 1, 5⟩ ["a"] []).observed = [2]
    ∧ (1 : Nat) < 2
    ∧ (wait_for_slot ⟨"q", "b", 3, 1, 5⟩ ["a"] []).outcome = .ok := by
  refine ⟨by decide, by decide, by decide⟩

/-- C1 (amended): if `max_position = M > 0` and a position that is also at
least the capacity is observed `> M` at some poll, Acquire fails with
`MaxPositionExceeded` carrying that exact position and `M`; if
`max_position = 0`, no position, however large, causes this failure. -/
theorem C1_bound_enforcement (ts : ThreadState) (queue : List String)
    (polls : List (Option Nat)) :
    (ts.max_position = 0 →
      ∀ v m, (wait_for_slot ts queue polls).outcome ≠ .maxPositionExceeded v m)
    ∧ (0 < ts.max_position →
      ∀ v ∈ (wait_for_slot ts queue polls).observed, ts.max_position < v →
        ts.capacity ≤ v →
        (wait_for_slot ts queue polls).outcome = .maxPositionExceeded v ts.max_position) := by
  constructor
  · intro h v m
    rw [wait_for_slot_outcome]
    exact waitLoop_maxPos_zero ts h (rpush queue ts.id).2 polls v m
  · intro h0 v hv hm hc
    rw [wait_for_slot_observed] at hv
    rw [wait_for_slot_outcome]
    exact waitLoop_maxPos_of_mem ts (rpush queue ts.id).2 polls v h0 hv hm hc

/-- Witness for C1's amended theorem at a concrete run. -/
theorem C1_bound_enforcement_witness :
    (wait_for_slot ⟨"q", "a", 1, 2, 5⟩ [] [some 5]).outcome = .maxPositionExceeded 5 2 :=
  (C1_bound_enforcement ⟨"q", "a", 1, 2, 5⟩ [] [some 5]).2 (by decide) 5 (by decide)
    (by decide) (by decide)

/-- C2: the initial position value of Acquire is the 1-based queue length
returned by the RPUSH of the caller's id, that raw length is the position of
the very first comparison against capacity, and the call returns success
exactly when a position below capacity is observed. -/
theorem C2_initial_position (ts : ThreadState) (queue : List String)
    (polls : List (Option Nat)) :
    (wait_for_slot ts queue polls).observed.head? = some (queue.length + 1)
    ∧ ((wait_for_slot ts queue polls).outcome = .ok ↔
        ∃ v ∈ (wait_for_slot ts queue polls).observed, v < ts.capacity) := by
  constructor
  · rw [wait_for_slot_observed]
    have := waitLoop_observed_head ts (rpush queue ts.id).2 polls
    simpa [rpush] using this
  · rw [wait_for_slot_outcome, wait_for_slot_observed]
    exact waitLoop_ok_iff ts (rpush queue ts.id).2 polls

/-- Witness for C2 at a concrete run. -/
theorem C2_initial_position_witness :
    (wait_for_slot ⟨"q", "a", 2, 0, 5⟩ [] []).outcome = .ok :=
  (C2_initial_position ⟨"q", "a", 2, 0, 5⟩ [] []).2.mpr (by decide)

/-- C3: Release issues exactly the two store operations EXPIRE(queue_key, 30)
and LPOP(queue_key, 1); it succeeds exactly when both legs succeed, in which
case the head of the queue is dropped (whatever it is, no comparison with the
caller's id) and the key's expiry is reset to 30; a failure of either leg is
surfaced to the caller. -/
theorem C3_release_two_ops (ts : ThreadState) (s : StoreState) (r1 r2 : LegResult) :
    (clean_up ts s r1 r2).trace =
      [.expireCmd ts.queue_key 30, .lpopCmd ts.queue_key 1]
    ∧ ((clean_up ts s r1 r2).result = .ok ↔ r1 = .ok ∧ r2 = .ok)
    ∧ (r1 = .ok → r2 = .ok → (clean_up ts s r1 r2).store = ⟨s.queue.tail, some 30⟩)
    ∧ (∀ e, (clean_up ts s r1 r2).result = .err e → r1 = .err e ∨ r2 = .err e) := by
  cases r1 <;> cases r2 <;> simp [clean_up]

/-- Witness for C3 at a concrete run. -/
theorem C3_release_two_ops_witness :
    (clean_up ⟨"q", "a", 1, 0, 5⟩ ⟨["a", "b"], none⟩ .ok .ok).store = ⟨["b"], some 30⟩ :=
  (C3_release_two_ops ⟨"q", "a", 1, 0, 5⟩ ⟨["a", "b"], none⟩ .ok .ok).2.2.1 rfl rfl

/-- C10: the expiry-refresh task of Release is awaited before the head-pop
task, so when both legs fail the surfaced error is the expiry leg's. -/
theorem C10_release_error_order (ts : ThreadState) (s : StoreState)
    (e1 e2 : SemaphoreError) :
    (clean_up ts s (.err e1) (.err e2)).result = .err e1 :=
  rfl

/-- C5, counterexample: with `capacity = 2`, when a re-query finds the
identity absent the position defaults to `1` and the call is admitted on that
same iteration, so the fallback is not treated as "still waiting, not yet
admitted". -/
theorem C5_counterexample :
    (wait_for_slot ⟨"q", "a", 2, 0, 5⟩ ["b", "c"] [none]).observed = [3, 1]
    ∧ (wait_for_slot ⟨"q", "a", 2, 0, 5⟩ ["b", "c"] [none]).outcome = .ok := by
  refine ⟨by decide, by decide⟩

/-- C5 (amended): when a re-query finds the identity absent the position
value defaults to `1` and is fed to the next iteration of the loop; only for
`capacity = 1` does this amount to "assume still waiting, not yet admitted"
(the loop neither admits nor fails and keeps polling, pending if no answers
remain), while for `capacity ≥ 2` the defaulted position is below capacity
and the call is admitted immediately. -/
theorem C5_default_fallback (ts : ThreadState) (p : Nat) (rest : List (Option Nat))
    (h1 : ts.capacity ≤ p) (h2 : ts.max_position = 0 ∨ p ≤ ts.max_position) :
    (waitLoop ts p ((none : Option Nat) :: rest)).observed =
      p :: (waitLoop ts 1 rest).observed
    ∧ (waitLoop ts p ((none : Option Nat) :: rest)).outcome = (waitLoop ts 1 rest).outcome
    ∧ (2 ≤ ts.capacity → (waitLoop ts 1 rest).outcome = .ok)
    ∧ (ts.capacity = 1 → (waitLoop ts 1 ([] : List (Option Nat))).outcome = .pending) := by
  have hnl : ¬ p < ts.capacity := by omega
  have hnf : ¬ (0 < ts.max_position ∧ ts.max_position < p) := by omega
  refine ⟨?_, ?_, ?_, ?_⟩
  · simp [waitLoop, hnl, hnf]
  · simp [waitLoop, hnl, hnf]
  · intro hcap
    have hlt : (1 : Nat) < ts.capacity := by omega
    cases rest <;> simp [waitLoop, hlt]
  · intro hcap
    simp only [waitLoop, hcap]
    split_ifs with ha hb
    · omega
    · omega
    · rfl

/-- Witness for C5's amended theorem at a concrete run. -/
theorem C5_default_fallback_witness : (waitLoop ⟨"q", "a", 2, 0, 5⟩ 1 []).outcome = .ok :=
  (C5_default_fallback ⟨"q", "a", 2, 0, 5⟩ 2 [] (by decide) (Or.inl rfl)).2.2.1 (by decide)

/-- C6: Acquire issues exactly one queue append (the RPUSH of the caller's
id, as the first store command) and no pop, so applying its whole command
trace to any queue leaves the caller's identity queued — also when the call
fails with `MaxPositionExceeded`. -/
theorem C6_single_append (ts : ThreadState) (queue : List String)
    (polls : List (Option Nat)) (q0 : List String) :
    ((wait_for_slot ts queue polls).trace.countP fun c => c.isPush) = 1
    ∧ ((wait_for_slot ts queue polls).trace.countP fun c => c.isPop) = 0
    ∧ applyTrace q0 (wait_for_slot ts queue polls).trace = q0 ++ [ts.id] := by
  have htr : ∀ c ∈ (waitLoop ts (rpush queue ts.id).2 polls).trace,
      c = StoreCmd.lposCmd ts.queue_key ts.id :=
    waitLoop_trace_mem ts (rpush queue ts.id).2 polls
  have hpush : ((waitLoop ts (rpush queue ts.id).2 polls).trace.countP
      fun c => c.isPush) = 0 := by
    rw [List.countP_eq_zero]
    intro c hc
    rw [htr c hc]
    simp [StoreCmd.isPush]
  have hpop : ((waitLoop ts (rpush queue ts.id).2 polls).trace.countP
      fun c => c.isPop) = 0 := by
    rw [List.countP_eq_zero]
    intro c hc
    rw [htr c hc]
    simp [StoreCmd.isPop]
  have happly := applyTrace_of_lpos ts.queue_key ts.id
    (waitLoop ts (rpush queue ts.id).2 polls).trace htr (q0 ++ [ts.id])
  refine ⟨?_, ?_, ?_⟩
  · show ((StoreCmd.rpushCmd ts.queue_key ts.id ::
        (waitLoop ts (rpush queue ts.id).2 polls).trace).countP fun c => c.isPush) = 1
    rw [List.countP_cons, hpush]
    rfl
  · show ((StoreCmd.rpushCmd ts.queue_key ts.id ::
        (waitLoop ts (rpush queue ts.id).2 polls).trace).countP fun c => c.isPop) = 0
    rw [List.countP_cons, hpop]
    rfl
  · show applyTrace q0 (StoreCmd.rpushCmd ts.queue_key ts.id ::
        (waitLoop ts (rpush queue ts.id).2 polls).trace) = q0 ++ [ts.id]
    rw [applyTrace, List.foldl_cons]
    exact happly

/-- Witness for C6 at a concrete failing run: the identity stays queued. -/
theorem C6_single_append_witness :
    applyTrace [] (wait_for_slot ⟨"q", "a", 1, 1, 5⟩ ["b", "c"] [some 2]).trace = ["a"] :=
  (C6_single_append ⟨"q", "a", 1, 1, 5⟩ ["b", "c"] [some 2] []).2.2

/-- C7: the backoff helper is a pure function of (position, capacity,
base_duration) returning at least `base_duration` and non-decreasing in
`position` for fixed capacity and base duration. -/
theorem C7_backoff_monotone (position capacity base_duration : Nat) :
    base_duration ≤ estimate_appropriate_sleep_duration position capacity base_duration
    ∧ ∀ q, position ≤ q →
        estimate_appropriate_sleep_duration position capacity base_duration ≤
          estimate_appropriate_sleep_duration q capacity base_duration := by
  constructor
  · have h1 : 1 ≤ min 10 (max 1 (Nat.sqrt (position - capacity))) := by
      have := le_max_left 1 (Nat.sqrt (position - capacity))
      omega
    calc base_duration = base_duration * 1 := (Nat.mul_one _).symm
      _ ≤ _ := Nat.mul_le_mul_left _ h1
  · intro q hq
    have hs : Nat.sqrt (position - capacity) ≤ Nat.sqrt (q - capacity) :=
      Nat.sqrt_le_sqrt (Nat.sub_le_sub_right hq _)
    have hmin : min 10 (max 1 (Nat.sqrt (position - capacity))) ≤
        min 10 (max 1 (Nat.sqrt (q - capacity))) := by
      omega
    exact Nat.mul_le_mul_left _ hmin

/-- Witness for C7 at concrete inputs. -/
theorem C7_backoff_monotone_witness :
    estimate_appropriate_sleep_duration 3 2 7 ≤ estimate_appropriate_sleep_duration 50 2 7 :=
  (C7_backoff_monotone 3 2 7).2 50 (by decide)

/-- C8: the capacity check precedes the max-position check — a
`MaxPositionExceeded` outcome always carries a position at least the
capacity (and the configured bound), and a position above `max_position`
but below the capacity is admitted at once rather than rejected. -/
theorem C8_capacity_check_first (ts : ThreadState) (queue : List String)
    (polls : List (Option Nat)) (p : Nat) :
    (∀ v m, (wait_for_slot ts queue polls).outcome = .maxPositionExceeded v m →
        ts.capacity ≤ v ∧ m = ts.max_position)
    ∧ (ts.max_position < p → p < ts.capacity → (waitLoop ts p polls).outcome = .ok) := by
  constructor
  · intro v m h
    rw [wait_for_slot_outcome] at h
    have := waitLoop_maxPos_inv ts (rpush queue ts.id).2 polls v m h
    exact ⟨this.1, this.2.1⟩
  · intro _ hcap
    cases polls <;> simp [waitLoop, hcap]

/-- Witness for C8 at a concrete run. -/
theorem C8_capacity_check_first_witness : (waitLoop ⟨"q", "a", 5, 1, 3⟩ 3 []).outcome = .ok :=
  (C8_capacity_check_first ⟨"q", "a", 5, 1, 3⟩ [] [] 3).2 (by decide) (by decide)

/-- C9: with `capacity ≥ 2`, a re-query that finds the identity absent
defaults the position to `1 < capacity` and the call succeeds on that same
loop iteration, issuing no further store command and consuming no further
poll. -/
theorem C9_not_found_admission (ts : ThreadState) (p : Nat) (rest : List (Option Nat))
    (hcap : 2 ≤ ts.capacity) (h1 : ts.capacity ≤ p)
    (h2 : ts.max_position = 0 ∨ p ≤ ts.max_position) :
    (waitLoop ts p ((none : Option Nat) :: rest)).outcome = .ok
    ∧ (waitLoop ts p ((none : Option Nat) :: rest)).observed = [p, 1]
    ∧ (waitLoop ts p ((none : Option Nat) :: rest)).trace =
        [StoreCmd.lposCmd ts.queue_key ts.id] := by
  have hnl : ¬ p < ts.capacity := by omega
  have hnf : ¬ (0 < ts.max_position ∧ ts.max_position < p) := by omega
  have hlt : (1 : Nat) < ts.capacity := by omega
  cases rest <;> simp [waitLoop, hnl, hnf, hlt]

/-- Witness for C9 at a concrete run. -/
theorem C9_not_found_admission_witness :
    (waitLoop ⟨"q", "a", 2, 0, 5⟩ 2 [none]).outcome = .ok :=
  (C9_not_found_admission ⟨"q", "a", 2, 0, 5⟩ 2 [] (by decide) (by decide) (Or.inl rfl)).1

/-- C4, counterexample: a single Acquire against an empty queue with
`capacity = 1` (so the caller is among the first C by push order and is
admitted) still observes a position at least the capacity — its raw 1-based
push length — before admission. -/
theorem C4_counterexample :
    (wait_for_slot ⟨"q", "a", 1, 0, 5⟩ [] [lpos "a" ["a"]]).outcome = .ok
    ∧ ∃ v ∈ (wait_for_slot ⟨"q", "a", 1, 0, 5⟩ [] [lpos "a" ["a"]]).observed, 1 ≤ v := by
  refine ⟨by decide, by decide⟩

/-- C4 (amended): for N concurrent Acquire calls with distinct ids against an
empty queue and `capacity = C` (unbounded `max_position`, pushes serialized in
order, at least one re-query available), the first C−1 callers by push order
are admitted without ever observing a position at least C; the C-th caller is
also admitted but first observes exactly its raw 1-based push length C before
its re-query answers C−1; each of the remaining N−C callers stays waiting and
every position it observes, at every poll, is at least C. -/
theorem C4_admission_order (ids : List String) (hnd : ids.Nodup) (k : Nat)
    (hk : k < ids.length) (C : Nat) (qk : String) (b m : Nat) (hm : 0 < m) :
    (k + 1 < C → (concurrentCallerRun ids k hk C qk b m).outcome = .ok
      ∧ ∀ v ∈ (concurrentCallerRun ids k hk C qk b m).observed, v < C)
    ∧ (k + 1 = C → (concurrentCallerRun ids k hk C qk b m).outcome = .ok
      ∧ (concurrentCallerRun ids k hk C qk b m).observed = [C, k])
    ∧ (C ≤ k → (concurrentCallerRun ids k hk C qk b m).outcome = .pending
      ∧ ∀ v ∈ (concurrentCallerRun ids k hk C qk b m).observed, C ≤ v) := by
  have hl : lpos (ids.get ⟨k, hk⟩) ids = some k := lpos_get_of_nodup ids hnd k hk
  have hpos : (rpush (ids.take k) (ids.get ⟨k, hk⟩)).2 = k + 1 := by
    simp [rpush]
    omega
  have hout : (concurrentCallerRun ids k hk C qk b m).outcome =
      (waitLoop ⟨qk, ids.get ⟨k, hk⟩, C, 0, b⟩ (k + 1) (List.replicate m (some k))).outcome := by
    rw [show (concurrentCallerRun ids k hk C qk b m).outcome =
        (waitLoop ⟨qk, ids.get ⟨k, hk⟩, C, 0, b⟩ ((rpush (ids.take k) (ids.get ⟨k, hk⟩)).2)
          (List.replicate m (lpos (ids.get ⟨k, hk⟩) ids))).outcome from rfl, hpos, hl]
  have hobs : (concurrentCallerRun ids k hk C qk b m).observed =
      (waitLoop ⟨qk, ids.get ⟨k, hk⟩, C, 0, b⟩ (k + 1) (List.replicate m (some k))).observed := by
    rw [show (concurrentCallerRun ids k hk C qk b m).observed =
        (waitLoop ⟨qk, ids.get ⟨k, hk⟩, C, 0, b⟩ ((rpush (ids.take k) (ids.get ⟨k, hk⟩)).2)
          (List.replicate m (lpos (ids.get ⟨k, hk⟩) ids))).observed from rfl, hpos, hl]
  refine ⟨?_, ?_, ?_⟩
  · intro hlt
    constructor
    · rw [hout]
      cases m <;> simp [waitLoop, hlt]
    · rw [hobs]
      cases m <;> simp [waitLoop, hlt]
  · intro heq
    obtain ⟨n, rfl⟩ : ∃ n, m = n + 1 := ⟨m - 1, by omega⟩
    have hklt : k < C := by omega
    have hnlt : ¬ (k + 1 < C) := by omega
    constructor
    · rw [hout]
      cases n <;> simp [waitLoop, List.replicate_succ, hklt, hnlt]
    · rw [hobs]
      cases n <;> simp [waitLoop, List.replicate_succ, hklt, hnlt, ← heq]
  · intro hC
    have h := waitLoop_replicate ⟨qk, ids.get ⟨k, hk⟩, C, 0, b⟩ rfl k hC m (k + 1)
      (Nat.le_succ_of_le hC)
    exact ⟨hout ▸ h.1, hobs ▸ h.2⟩

/-- Witness for C4's amended theorem: the second of three concurrent callers
with capacity 2 is admitted after observing its raw push length 2. -/
theorem C4_admission_order_witness :
    (concurrentCallerRun ["a", "b", "c"] 1 (by decide) 2 "q" 5 1).outcome = .ok :=
  ((C4_admission_order ["a", "b", "c"] (by decide) 1 (by decide) 2 "q" 5 1
    (by decide)).2.1 rfl).1
